import Mathlib

/- Shallow embedding of the Shirusia activity logger (the final variant of main.go:
   sessions plus Slack ingestion). Go strings are modelled as Lean strings (lists of
   unicode scalar values); instants and durations as integer nanosecond counts, as in
   Go's time package. -/

set_option linter.unusedVariables false
set_option maxRecDepth 10000

/-- Helper for Go strings.Contains: does the second list start with the first. -/
def goStartsWith : List Char → List Char → Bool
  | [], _ => true
  | _ :: _, [] => false
  | a :: as, b :: bs => a == b && goStartsWith as bs

/-- Go strings.Contains on the underlying char lists (sub, then haystack). -/
def goContainsL (sub : List Char) : List Char → Bool
  | [] => goStartsWith sub []
  | c :: t => goStartsWith sub (c :: t) || goContainsL sub t

/-- Go strings.Contains(s, sub). -/
def goContains (s sub : String) : Bool := goContainsL sub.data s.data

/-- Go strings.ToLower, modelled on the basic-latin range (which covers every rule
keyword of the classifier). -/
def goLower (s : String) : String := String.mk (s.data.map Char.toLower)

/-- Go hasAny(s, keys): some key is a substring of s. -/
def hasAny (s : String) (keys : List String) : Bool := keys.any fun k => goContains s k

/-- The file-extension tokens of the coding rule. -/
def codingExts : List String :=
  [".go", ".py", ".js", ".ts", ".rs", ".cpp", ".c", ".java", ".rb", ".kt", ".swift", ".cs"]

/-- The title keywords of the documentation-browsing rule. -/
def docsKeys : List String :=
  ["arxiv", "qiita", "stackoverflow", "docs", "doc:", "documentation", "mdn"]

/-- The title keywords of the media rule. -/
def mediaKeys : List String :=
  ["youtube", "netflix", "twitch", "spotify", "music", "soundcloud"]

/-- Go classifyActivity: lower both inputs, then run the ordered rule chain and
return the first matching category; the final else is the fallback. -/
def classifyActivity (app title : String) : String :=
  let a := goLower app
  let t := goLower title
  if a == "mail" || goContains a "outlook" || goContains t "gmail" || goContains t "outlook" || goContains t "yahoo mail" then
    "メールのやり取り"
  else if goContains a "visual studio code" || a == "xcode" || goContains a "intellij" || goContains a "goland" then
    "プログラムの制作"
  else if hasAny t codingExts then
    "プログラムの制作"
  else if goContains a "slack" || goContains a "teams" || goContains a "discord" || goContains a "zoom" || goContains a "meet" then
    "コミュニケーション"
  else if goContains a "safari" || goContains a "chrome" || goContains a "arc" || goContains a "firefox" || goContains a "edge" || goContains a "brave" || goContains a "opera" || goContains a "vivaldi" then
    (if hasAny t docsKeys then "調査・ドキュメント閲覧" else "Webブラウジング")
  else if goContains a "word" || goContains a "pages" || goContains a "notion" || goContains a "obsidian" then
    "ドキュメント編集"
  else if goContains a "excel" || goContains a "numbers" || goContains a "sheets" then
    "表計算・データ整理"
  else if goContains a "powerpoint" || goContains a "keynote" then
    "プレゼン資料作成"
  else if goContains a "finder" || goContains a "path finder" then
    "ファイル操作"
  else if hasAny t mediaKeys then
    "メディア視聴・再生"
  else
    "その他"

/-- Go regexp class \s as compiled by RE2: tab, newline, form feed, carriage return,
space. -/
def isRe2Space (c : Char) : Bool :=
  c == '\t' || c == '\n' || c == '\x0c' || c == '\r' || c == ' '

/-- Models spaceRe.ReplaceAllString(s, " ") for spaceRe = \s+ : every maximal run of
\s characters becomes one single space (written with structural recursion: a space
followed by another space is dropped, the last space of a run is kept as one ' '). -/
def collapseSpaces : List Char → List Char
  | [] => []
  | [c] => if isRe2Space c then [' '] else [c]
  | c1 :: c2 :: rest =>
    if isRe2Space c1 && isRe2Space c2 then collapseSpaces (c2 :: rest)
    else (if isRe2Space c1 then ' ' else c1) :: collapseSpaces (c2 :: rest)

/-- Go unicode.IsSpace (the White_Space property, used by strings.TrimSpace). -/
def isGoSpace (c : Char) : Bool :=
  c == '\t' || c == '\n' || c == '\x0b' || c == '\x0c' || c == '\r' || c == ' ' ||
  c.toNat == 0x85 || c.toNat == 0xa0 || c.toNat == 0x1680 ||
  (Nat.ble 0x2000 c.toNat && Nat.ble c.toNat 0x200a) ||
  c.toNat == 0x2028 || c.toNat == 0x2029 || c.toNat == 0x202f || c.toNat == 0x205f || c.toNat == 0x3000

/-- Go strings.TrimSpace on a char list. -/
def goTrimL (l : List Char) : List Char :=
  ((l.dropWhile isGoSpace).reverse.dropWhile isGoSpace).reverse

/-- Go strings.TrimSpace. -/
def goTrimSpace (s : String) : String := String.mk (goTrimL s.data)

/-- Go clean: strip NUL characters, turn tabs into spaces, collapse whitespace runs
to single spaces, trim leading and trailing whitespace. -/
def clean (s : String) : String :=
  String.mk (goTrimL (collapseSpaces
    ((s.data.filter fun c => !(c == '\x00')).map fun c => if c == '\t' then ' ' else c)))

/-- Go time.Second in nanoseconds. -/
def nsPerSec : Int := 1000000000

/-- Go time.maxDuration (int64 max). -/
def maxDuration : Int := 9223372036854775807

/-- Go time.minDuration (int64 min). -/
def minDuration : Int := -9223372036854775808

/-- Go time.lessThanHalf(x, y): x+x < y, used by Duration.Round. -/
def lessThanHalf (x y : Int) : Bool := decide (x + x < y)

/-- Go Duration.Round(m): round d to the nearest multiple of m, ties away from zero
(Go % on int64 is truncated division remainder, Int.tmod). -/
def durRound (d m : Int) : Int :=
  if m ≤ 0 then d
  else
    let r := Int.tmod d m
    if d < 0 then
      let r2 := -r
      if lessThanHalf r2 m then d + r2
      else if d - m + r2 < d then d - m + r2 else minDuration
    else
      if lessThanHalf r m then d - r
      else if d + m - r > d then d + m - r else maxDuration

/-- Go struct record: one poll sample together with its classification. -/
structure record where
  App : String
  Title : String
  Activity : String
  Timestamp : Int
deriving DecidableEq

/-- Go struct session: the persisted form of a finished session. -/
structure session where
  Start : String
  End : String
  App : String
  Title : String
  Activity : String
  DurationSec : Int
deriving DecidableEq

/-- Modelled from the spec: the missing RFC3339 rendering of an instant ("start
(instant, RFC3339-equivalent textual form)"). Go renders instants with
time.Time.Format(time.RFC3339), an injective textual encoding of the instant,
modelled here as the decimal rendering of the nanosecond count. -/
def fmtTime (t : Int) : String := toString t

/-- Go sessionFrom: finalize an open session over [start, stop] into a session
record; duration is rounded to the nearest second, clamped at zero, and the three
text fields are normalized with clean. -/
def sessionFrom (r : record) (start stop : Int) : session :=
  let dur := durRound (stop - start) nsPerSec
  let dur2 := if dur < 0 then 0 else dur
  { Start := fmtTime start
    End := fmtTime stop
    App := clean r.App
    Title := clean r.Title
    Activity := clean r.Activity
    DurationSec := Int.tdiv dur2 nsPerSec }

/-- Go changed(prev, cur): a transition iff app, title or activity differs, by raw
exact string equality. (The Go nil-guard on prev corresponds to the None tracker
state, which the loop handles before calling changed.) -/
def changed (prev cur : record) : Bool :=
  prev.App != cur.App || prev.Title != cur.Title || prev.Activity != cur.Activity

/-- One poll observation: the sampled frontmost (app, title) pair and the tick
instant time.Now(). -/
structure Sample where
  app : String
  title : String
  now : Int
deriving DecidableEq

/-- The cur record built from a sample inside the poll loop body. -/
def toRec (s : Sample) : record :=
  { App := s.app, Title := s.title, Activity := classifyActivity s.app s.title, Timestamp := s.now }

/-- One iteration of the poll loop body (ticker case): from the tracker state (the
last record and the session start instant, or none) and a fresh sample, the next
state and the finalized session handed to AppendSession, if any. -/
def pollTick (st : Option (record × Int)) (s : Sample) : Option (record × Int) × Option session :=
  let cur := toRec s
  match st with
  | none => (some (cur, s.now), none)
  | some (last, sessStart) =>
    if changed last cur then (some (cur, s.now), some (sessionFrom last sessStart s.now))
    else (some (last, sessStart), none)

/-- The poll loop over a list of samples: the sessions emitted to the writer in
order, and the final tracker state. -/
def pollLoop (st : Option (record × Int)) : List Sample → List session × Option (record × Int)
  | [] => ([], st)
  | s :: rest =>
    let next := pollTick st s
    let tail := pollLoop next.1 rest
    (next.2.toList ++ tail.1, tail.2)

/-- Shutdown finalization (the signal case of the main loop): when a session is
open, finalize it at the shutdown instant and emit exactly one record; the tracker
is then discarded (state none). In state none nothing is emitted. -/
def closeNow (st : Option (record × Int)) (now : Int) : Option session × Option (record × Int) :=
  match st with
  | none => (none, none)
  | some (r, sessStart) => (some (sessionFrom r sessStart now), none)

/-- The whole driver run: the poll loop over the samples, then the shutdown pass at
instant tEnd. Result: every session emitted to the writer, in append order. -/
def runMain (samples : List Sample) (tEnd : Int) : List session × Option (record × Int) :=
  let run := pollLoop none samples
  let fin := closeNow run.2 tEnd
  (run.1 ++ fin.1.toList, fin.2)

/-- Go struct jsonArrayWriter, modelled by the flushed file content and the
wroteFirst flag. -/
structure jsonArrayWriter where
  content : List Char
  wroteFirst : Bool
deriving DecidableEq

/-- Go newJSONArrayWriter: a fresh file holding the opening token. -/
def newJSONArrayWriter : jsonArrayWriter := { content := "[\n".data, wroteFirst := false }

/-- Lowercase hexadecimal digit of a value below 16. -/
def hexDig (n : Nat) : Char := if n < 10 then Char.ofNat (48 + n) else Char.ofNat (87 + n)

/-- Go encoding/json escaping of one string character (HTML escaping on, as with
json.Marshal): quote, backslash, newline, carriage return and tab get named
escapes; other control characters and the HTML-sensitive characters become \u00xx;
U+2028 and U+2029 become   and  ; everything else is untouched. -/
def escapeChar (c : Char) : List Char :=
  if c == '"' then ['\\', '"']
  else if c == '\\' then ['\\', '\\']
  else if c == '\n' then ['\\', 'n']
  else if c == '\r' then ['\\', 'r']
  else if c == '\t' then ['\\', 't']
  else if Nat.blt c.toNat 32 || c == '<' || c == '>' || c == '&' then
    ['\\', 'u', '0', '0', hexDig (c.toNat / 16), hexDig (c.toNat % 16)]
  else if c.toNat == 0x2028 || c.toNat == 0x2029 then
    ['\\', 'u', '2', '0', '2', hexDig (c.toNat % 16)]
  else [c]

/-- Go encoding/json escaping of a whole string body. -/
def escapeString : List Char → List Char
  | [] => []
  | c :: rest => escapeChar c ++ escapeString rest

/-- Go encoding/json rendering of a string value, quotes included. -/
def jstr (s : String) : List Char := '"' :: (escapeString s.data ++ ['"'])

/-- Decimal digits of a natural number, most significant first (fueled so that the
recursion is structural; the fuel in natDigits always suffices). -/
def natDigitsAux : Nat → Nat → List Char
  | 0, _ => []
  | fuel + 1, n =>
    if n < 10 then [Char.ofNat (48 + n)]
    else natDigitsAux fuel (n / 10) ++ [Char.ofNat (48 + n % 10)]

/-- Decimal digits of a natural number (most significant first). -/
def natDigits (n : Nat) : List Char := natDigitsAux (n + 1) n

/-- Go encoding/json rendering of an int64: decimal, minus sign when negative. -/
def jint (i : Int) : List Char :=
  if i < 0 then '-' :: natDigits (-i).toNat else natDigits i.toNat

/-- Go json.Marshal of a session value: the six fields in struct-tag order, string
values quoted and escaped, the int64 in decimal (written with the quote characters
merged into the neighbouring literals; the byte stream is exactly the one Go
produces, see marshalSession_jstr). -/
def marshalSession (s : session) : List Char :=
  "\x7b\"start\":\"".data ++ escapeString s.Start.data ++
  "\",\"end\":\"".data ++ escapeString s.End.data ++
  "\",\"app\":\"".data ++ escapeString s.App.data ++
  "\",\"title\":\"".data ++ escapeString s.Title.data ++
  "\",\"activity\":\"".data ++ escapeString s.Activity.data ++
  "\",\"durationSec\":".data ++ jint s.DurationSec ++ "\x7d".data

/-- Go (*jsonArrayWriter).AppendSession: a separator if and only if a record was
written before, then the marshalled record; the buffer is flushed and fsynced
before the call returns. -/
def AppendSession (j : jsonArrayWriter) (s : session) : jsonArrayWriter :=
  { content := j.content ++ (if j.wroteFirst then ",\n".data else []) ++ marshalSession s
    wroteFirst := true }

/-- Go (*jsonArrayWriter).Close: append the closing token; the result is the final
file content. -/
def jsonArrayWriter.Close (j : jsonArrayWriter) : List Char := j.content ++ "\n]\n".data

/-- Open a fresh writer and append every record of the list in order. -/
def appendAll (recs : List session) : jsonArrayWriter :=
  recs.foldl AppendSession newJSONArrayWriter

/-- Spec-side shape of the appended payload: records in order, a separator before
each record except the first. -/
def appendedContent : List session → List Char
  | [] => []
  | [s] => marshalSession s
  | s :: rest => marshalSession s ++ ",\n".data ++ appendedContent rest

/-- Spec-side shape of the payload after the first record: a separator then a
record, repeated. -/
def tailContent : List session → List Char
  | [] => []
  | s :: rest => ",\n".data ++ marshalSession s ++ tailContent rest

/-- Value of one lowercase hexadecimal digit character. -/
def hexVal (c : Char) : Option Nat :=
  if Nat.ble 48 c.toNat && Nat.ble c.toNat 57 then some (c.toNat - 48)
  else if Nat.ble 97 c.toNat && Nat.ble c.toNat 102 then some (c.toNat - 87)
  else none

/-- Modelled from the spec: the downstream parser ("a file parseable back into
exactly N records") for a JSON string body after the opening quote, inverting the
Go escaping; returns the decoded characters and the unconsumed rest. -/
def parseJStrBody : List Char → Option (List Char × List Char)
  | [] => none
  | c :: rest =>
    if c == '"' then some ([], rest)
    else if c == '\\' then
      match rest with
      | [] => none
      | e :: rest2 =>
        if e == '"' then (parseJStrBody rest2).map fun p => ('"' :: p.1, p.2)
        else if e == '\\' then (parseJStrBody rest2).map fun p => ('\\' :: p.1, p.2)
        else if e == 'n' then (parseJStrBody rest2).map fun p => ('\n' :: p.1, p.2)
        else if e == 'r' then (parseJStrBody rest2).map fun p => ('\r' :: p.1, p.2)
        else if e == 't' then (parseJStrBody rest2).map fun p => ('\t' :: p.1, p.2)
        else if e == 'u' then
          match rest2 with
          | h1 :: h2 :: h3 :: h4 :: rest3 =>
            match hexVal h1, hexVal h2, hexVal h3, hexVal h4 with
            | some a, some b, some c3, some d =>
              (parseJStrBody rest3).map fun p =>
                (Char.ofNat (((a * 16 + b) * 16 + c3) * 16 + d) :: p.1, p.2)
            | _, _, _, _ => none
          | _ => none
        else none
    else (parseJStrBody rest).map fun p => (c :: p.1, p.2)

/-- Decimal digit test. -/
def isDigitCh (c : Char) : Bool := Nat.ble 48 c.toNat && Nat.ble c.toNat 57

/-- Consume a run of decimal digits, folding them onto an accumulator. -/
def parseNatAux (acc : Nat) : List Char → Nat × List Char
  | [] => (acc, [])
  | c :: rest =>
    if isDigitCh c then parseNatAux (acc * 10 + (c.toNat - 48)) rest else (acc, c :: rest)

/-- Parse a nonempty run of decimal digits. -/
def parseNatL (l : List Char) : Option (Nat × List Char) :=
  match l with
  | [] => none
  | c :: _ => if isDigitCh c then some (parseNatAux 0 l) else none

/-- Parse a decimal integer with optional minus sign. -/
def parseIntL (l : List Char) : Option (Int × List Char) :=
  match l with
  | [] => none
  | c :: rest =>
    if c == '-' then (parseNatL rest).map fun p => (-(p.1 : Int), p.2)
    else (parseNatL (c :: rest)).map fun p => ((p.1 : Int), p.2)

/-- Consume an expected literal from the head of the input. -/
def dropLit : List Char → List Char → Option (List Char)
  | [], l => some l
  | _ :: _, [] => none
  | p :: ps, c :: l => if c == p then dropLit ps l else none

/-- Modelled from the spec: the downstream parser for one marshalled session
record; inverse of marshalSession. -/
def parseSession (l : List Char) : Option (session × List Char) :=
  (dropLit "\x7b\"start\":\"".data l).bind fun l1 =>
  (parseJStrBody l1).bind fun p1 =>
  (dropLit ",\"end\":\"".data p1.2).bind fun l2 =>
  (parseJStrBody l2).bind fun p2 =>
  (dropLit ",\"app\":\"".data p2.2).bind fun l3 =>
  (parseJStrBody l3).bind fun p3 =>
  (dropLit ",\"title\":\"".data p3.2).bind fun l4 =>
  (parseJStrBody l4).bind fun p4 =>
  (dropLit ",\"activity\":\"".data p4.2).bind fun l5 =>
  (parseJStrBody l5).bind fun p5 =>
  (dropLit ",\"durationSec\":".data p5.2).bind fun l6 =>
  (parseIntL l6).bind fun p6 =>
  (dropLit "\x7d".data p6.2).map fun l7 =>
  ({ Start := String.mk p1.1, End := String.mk p2.1, App := String.mk p3.1,
     Title := String.mk p4.1, Activity := String.mk p5.1, DurationSec := p6.1 }, l7)

/-- Modelled from the spec: parse the records after the first one (fueled by the
remaining input length): either the closing token, or a separator followed by one
more record. -/
def parseMore : Nat → List Char → Option (List session)
  | 0, l => if l = "\n]\n".data then some [] else none
  | fuel + 1, l =>
    if l = "\n]\n".data then some []
    else (dropLit ",\n".data l).bind fun l1 =>
         (parseSession l1).bind fun p =>
         (parseMore fuel p.2).map fun ss => p.1 :: ss

/-- Modelled from the spec: the downstream parser of the whole session container
file; returns the record list when the content is a well-formed closed container. -/
def parseFile (l : List Char) : Option (List session) :=
  (dropLit "[\n".data l).bind fun l1 =>
  if l1 = "\n]\n".data then some []
  else (parseSession l1).bind fun p =>
       (parseMore l1.length p.2).map fun ss => p.1 :: ss

/-- Go struct messageEntry: one persisted Slack message record. -/
structure messageEntry where
  Timestamp : String
  Source : String
  Direction : String
  Title : String
  Text : String
  Meta : List (String × String)
deriving DecidableEq

/-- The fields of a slackevents.MessageEvent that the ingest loop reads. -/
structure MessageEvent where
  SubType : String
  Text : String
  User : String
  Channel : String
  ThreadTimeStamp : String
  TimeStamp : String
deriving DecidableEq

/-- The messageEntry built for a qualifying message event: ingestion timestamp,
fixed source tag, channel as title, raw text, and the metadata bag with channel,
thread, author and origin timestamp. -/
def mkMessageEntry (ev : MessageEvent) (now : Int) : messageEntry :=
  { Timestamp := fmtTime now
    Source := "Slack"
    Direction := "sent"
    Title := ev.Channel
    Text := ev.Text
    Meta := [("channelId", ev.Channel), ("threadTs", ev.ThreadTimeStamp),
             ("userId", ev.User), ("ts", ev.TimeStamp)] }

/-- The message-event case of the Slack ingest loop: the three drop filters, in
source order, and the messageEntry built for a qualifying event (none when the
event is dropped; a some result is saved as exactly one file by saveMessageJSON). -/
def handleMessageEvent (logAll : Bool) (selfId : String) (ev : MessageEvent) (now : Int) :
    Option messageEntry :=
  if ev.SubType != "" then none
  else if goTrimSpace ev.Text == "" then none
  else if !logAll && ev.User != selfId then none
  else some (mkMessageEntry ev now)

/-- The poll loop with injected persistence failures: fail k tells whether the k-th
AppendSession call of the run fails. A failed append writes one error log line
(middle component counts them) and loses that one record from the file; the loop
continues either way and the tracker state is updated exactly as in pollLoop. -/
def pollLoopF (fail : Nat → Bool) (st : Option (record × Int)) (k : Nat) :
    List Sample → List session × Nat × Option (record × Int)
  | [] => ([], 0, st)
  | s :: rest =>
    let next := pollTick st s
    match next.2 with
    | none => pollLoopF fail next.1 k rest
    | some sess =>
      let tail := pollLoopF fail next.1 (k + 1) rest
      ((if fail k then [] else [sess]) ++ tail.1,
       (if fail k then 1 else 0) + tail.2.1, tail.2.2)

/-- Spec-side: drop from a list the elements whose append attempt (numbered from k)
fails. -/
def filterFails (fail : Nat → Bool) : Nat → List session → List session
  | _, [] => []
  | k, s :: rest => (if fail k then [] else [s]) ++ filterFails fail (k + 1) rest

/-- Spec-side: how many of n append attempts starting at k fail. -/
def countFails (fail : Nat → Bool) : Nat → Nat → Nat
  | _, 0 => 0
  | k, n + 1 => (if fail k then 1 else 0) + countFails fail (k + 1) n

/-- Spec-side duration: end minus start, rounded to the nearest whole second (ties
away from zero, the rounding the code uses), floored at zero. -/
def specDurationSec (start stop : Int) : Int :=
  let d := stop - start
  let n := if d < 0 then -((-d + 500000000) / 1000000000) else (d + 500000000) / 1000000000
  max n 0

/-- The closed category set of the classifier. -/
def categories : List String :=
  ["メールのやり取り", "プログラムの制作", "コミュニケーション", "調査・ドキュメント閲覧",
   "Webブラウジング", "ドキュメント編集", "表計算・データ整理", "プレゼン資料作成",
   "ファイル操作", "メディア視聴・再生", "その他"]

/-- Every rule condition of the classifier chain, on the lowered inputs, as one
disjunction (same conditions, same order as classifyActivity). -/
def anyRuleMatches (app title : String) : Bool :=
  let a := goLower app
  let t := goLower title
  a == "mail" || goContains a "outlook" || goContains t "gmail" || goContains t "outlook" || goContains t "yahoo mail" ||
  (goContains a "visual studio code" || a == "xcode" || goContains a "intellij" || goContains a "goland") ||
  hasAny t codingExts ||
  (goContains a "slack" || goContains a "teams" || goContains a "discord" || goContains a "zoom" || goContains a "meet") ||
  (goContains a "safari" || goContains a "chrome" || goContains a "arc" || goContains a "firefox" || goContains a "edge" || goContains a "brave" || goContains a "opera" || goContains a "vivaldi") ||
  (goContains a "word" || goContains a "pages" || goContains a "notion" || goContains a "obsidian") ||
  (goContains a "excel" || goContains a "numbers" || goContains a "sheets") ||
  (goContains a "powerpoint" || goContains a "keynote") ||
  (goContains a "finder" || goContains a "path finder") ||
  hasAny t mediaKeys

/-- Spec-side transition count of a sample sequence: the number of consecutive
sample pairs that differ in application, title or classified activity. -/
def countTransitions : List Sample → Nat
  | [] => 0
  | [_] => 0
  | s1 :: s2 :: rest =>
    (if changed (toRec s1) (toRec s2) then 1 else 0) + countTransitions (s2 :: rest)

/-- Transition count as seen from an open tracker record. -/
def countChangesFrom (r : record) : List Sample → Nat
  | [] => 0
  | s :: rest =>
    if changed r (toRec s) then 1 + countChangesFrom (toRec s) rest
    else countChangesFrom r rest

/-- The fields that changed reads. -/
def keyEq (r r2 : record) : Prop :=
  r.App = r2.App ∧ r.Title = r2.Title ∧ r.Activity = r2.Activity

/- ===== Helper lemmas ===== -/

theorem charOfNat_toNat_le : ∀ n : Nat, n ≤ 122 → (Char.ofNat n).toNat = n := by decide

theorem toLower_toLower (c : Char) : c.toLower.toLower = c.toLower := by
  by_cases h : 65 ≤ c.toNat ∧ c.toNat ≤ 90
  · have h1 : c.toLower = Char.ofNat (c.toNat + 32) := by
      simp only [Char.toLower]
      rw [if_pos ⟨h.1, h.2⟩]
    have h2 : (Char.ofNat (c.toNat + 32)).toNat = c.toNat + 32 :=
      charOfNat_toNat_le _ (by omega)
    rw [h1]
    simp only [Char.toLower, h2]
    rw [if_neg (by omega)]
  · have h1 : c.toLower = c := by
      simp only [Char.toLower]
      rw [if_neg (by omega)]
    rw [h1, h1]

theorem mapLower_idem : ∀ l : List Char,
    (l.map Char.toLower).map Char.toLower = l.map Char.toLower
  | [] => rfl
  | c :: rest => by simp [mapLower_idem rest, toLower_toLower c]

theorem goLower_goLower (s : String) : goLower (goLower s) = goLower s := by
  show String.mk ((s.data.map Char.toLower).map Char.toLower) = String.mk (s.data.map Char.toLower)
  rw [mapLower_idem]

/- ===== C9: the classifier is a total deterministic function ===== -/

/-- C9: classifyActivity is total and deterministic: every result belongs to the
fixed closed category set; equal inputs give equal results; matching is
case-insensitive (lowering the inputs beforehand does not change the result); and
when no rule condition matches, the single fallback category is returned. -/
theorem classify_total_deterministic :
    (∀ a t, classifyActivity a t ∈ categories) ∧
    (∀ a t a2 t2, a = a2 → t = t2 → classifyActivity a t = classifyActivity a2 t2) ∧
    (∀ a t, classifyActivity a t = classifyActivity (goLower a) (goLower t)) ∧
    (∀ a t, anyRuleMatches a t = false → classifyActivity a t = "その他") := by
  refine ⟨?_, ?_, ?_, ?_⟩
  · intro a t
    simp only [classifyActivity]
    repeat' split
    all_goals simp [categories]
  · intro a t a2 t2 h1 h2
    rw [h1, h2]
  · intro a t
    simp only [classifyActivity, goLower_goLower]
  · intro a t h
    simp only [anyRuleMatches, Bool.or_eq_false_iff] at h
    obtain ⟨⟨⟨⟨⟨⟨⟨⟨⟨⟨h1, h2⟩, h3⟩, h4⟩, h5⟩, h6⟩, h7⟩, h8⟩, h9⟩, h10⟩, h11⟩ := h
    simp only [classifyActivity, h1, h2, h3, h4, h5, h6, h7, h8, h9, h10, h11]
    simp

/-- C9 witness at concrete inputs. -/
theorem classify_total_deterministic_witness :
    classifyActivity "Finder" "x" ∈ categories ∧ classifyActivity "foo" "bar" = "その他" :=
  ⟨classify_total_deterministic.1 "Finder" "x",
   classify_total_deterministic.2.2.2 "foo" "bar" (by decide)⟩

/- ===== C7: coding-editor rule versus browser rule precedence ===== -/

/-- C7 counterexample: an application matching the coding-editor rule ("Visual
Studio Code") and a title containing the browser-domain keyword "docs", for which
the classifier nevertheless does not return the coding category: the mail rule is
checked first and matches "gmail" in the title. -/
theorem coding_precedence_counterexample :
    goContains (goLower "Visual Studio Code") "visual studio code" = true ∧
    goContains (goLower "gmail docs") "docs" = true ∧
    classifyActivity "Visual Studio Code" "gmail docs" ≠ "プログラムの制作" ∧
    classifyActivity "Visual Studio Code" "gmail docs" = "メールのやり取り" := by
  refine ⟨by decide, by decide, by decide, by decide⟩

/-- C7 amended: when the application matches a coding-editor rule and the mail rule
(the only rule evaluated earlier) does not match, the classifier returns the coding
category whatever the title contains; in particular, for titles containing
browser-domain keywords the coding-editor rule wins over the browser rule by
first-match-in-order evaluation. -/
theorem coding_rule_wins (app title : String)
    (hcode : (goContains (goLower app) "visual studio code" || goLower app == "xcode" ||
              goContains (goLower app) "intellij" || goContains (goLower app) "goland") = true)
    (hmail : (goLower app == "mail" || goContains (goLower app) "outlook" ||
              goContains (goLower title) "gmail" || goContains (goLower title) "outlook" ||
              goContains (goLower title) "yahoo mail") = false) :
    classifyActivity app title = "プログラムの制作" := by
  simp only [classifyActivity, hmail, hcode]
  simp

/-- C7 amended witness: a coding editor in front of a title full of browser-domain
keywords still classifies as coding. -/
theorem coding_rule_wins_witness :
    classifyActivity "Visual Studio Code" "qiita stackoverflow docs" = "プログラムの制作" :=
  coding_rule_wins "Visual Studio Code" "qiita stackoverflow docs" (by decide) (by decide)

/- ===== C6: transition detection compares raw values ===== -/

/-- C6: transition detection uses exact equality on the raw sampled application,
title and classified activity; normalization (clean) is applied by sessionFrom
only at the finalize step; and two records that differ only in characters that
normalization would remove (a tab versus a space) still count as a transition. -/
theorem transition_uses_raw_equality :
    (∀ prev cur : record, changed prev cur = false ↔
      (prev.App = cur.App ∧ prev.Title = cur.Title ∧ prev.Activity = cur.Activity)) ∧
    (∀ (r : record) (start stop : Int),
      (sessionFrom r start stop).App = clean r.App ∧
      (sessionFrom r start stop).Title = clean r.Title ∧
      (sessionFrom r start stop).Activity = clean r.Activity) ∧
    (clean "x\ty" = clean "x y" ∧
      changed ⟨"A", "x\ty", "c", 0⟩ ⟨"A", "x y", "c", 0⟩ = true) := by
  refine ⟨?_, ?_, by decide, by decide⟩
  · intro prev cur
    simp [changed, and_assoc]
  · intro r start stop
    simp [sessionFrom]

/- ===== C2: duration = round-to-nearest-second of end - start, clamped at 0 ===== -/

theorem tmod_billion (d : Int) :
    Int.tmod d 1000000000 = if 0 ≤ d then d % 1000000000 else -((-d) % 1000000000) := by
  rcases le_or_lt 0 d with hd | hd
  · rw [if_pos hd]
    exact Int.tmod_eq_emod hd (by norm_num)
  · rw [if_neg (by omega)]
    have h1 : Int.tmod d 1000000000 = d - 1000000000 * Int.tdiv d 1000000000 :=
      Int.tmod_def d 1000000000
    have h2 := Int.neg_tdiv (-d) 1000000000
    rw [neg_neg] at h2
    have h3 : Int.tdiv (-d) 1000000000 = (-d) / 1000000000 :=
      Int.tdiv_eq_ediv (by omega) (by norm_num)
    rw [h1, h2, h3]
    omega

theorem round_clamp_tdiv (d : Int) :
    Int.tdiv (if durRound d nsPerSec < 0 then 0 else durRound d nsPerSec) nsPerSec =
      max (if d < 0 then -((-d + 500000000) / 1000000000)
           else (d + 500000000) / 1000000000) 0 := by
  simp only [durRound, nsPerSec, lessThanHalf, tmod_billion, decide_eq_true_eq, max_def]
  rw [if_neg (by norm_num : ¬ (1000000000:Int) ≤ 0)]
  split_ifs <;>
    first
      | omega
      | (rw [Int.tdiv_eq_ediv] <;> omega)

/-- C2: sessionFrom produces DurationSec equal to end minus start rounded to the
nearest whole second, clamped to be nonnegative even when end < start (clock
skew). -/
theorem sessionFrom_duration (r : record) (start stop : Int) :
    (sessionFrom r start stop).DurationSec = specDurationSec start stop ∧
    0 ≤ (sessionFrom r start stop).DurationSec := by
  have h := round_clamp_tdiv (stop - start)
  constructor
  · simp only [sessionFrom, specDurationSec]
    exact h
  · simp only [sessionFrom]
    rw [h]
    exact le_max_right _ _

/- ===== C8: the Slack event filter ===== -/

/-- C8: an event with nonempty subtype is dropped; an event whose text trims to
empty is dropped; an event from another author is dropped unless capture-all is
set; otherwise exactly one messageEntry is produced, and its metadata carries the
channel id, thread timestamp, author id and origin timestamp. -/
theorem slack_event_filter (logAll : Bool) (selfId : String) (ev : MessageEvent) (now : Int) :
    (ev.SubType ≠ "" → handleMessageEvent logAll selfId ev now = none) ∧
    (goTrimSpace ev.Text = "" → handleMessageEvent logAll selfId ev now = none) ∧
    (logAll = false → ev.User ≠ selfId → handleMessageEvent logAll selfId ev now = none) ∧
    (ev.SubType = "" → goTrimSpace ev.Text ≠ "" → (logAll = true ∨ ev.User = selfId) →
      handleMessageEvent logAll selfId ev now = some (mkMessageEntry ev now) ∧
      (mkMessageEntry ev now).Meta.lookup "channelId" = some ev.Channel ∧
      (mkMessageEntry ev now).Meta.lookup "threadTs" = some ev.ThreadTimeStamp ∧
      (mkMessageEntry ev now).Meta.lookup "userId" = some ev.User ∧
      (mkMessageEntry ev now).Meta.lookup "ts" = some ev.TimeStamp) := by
  refine ⟨?_, ?_, ?_, ?_⟩
  · intro h
    simp [handleMessageEvent, h]
  · intro h
    simp [handleMessageEvent, h]
  · intro h1 h2
    simp [handleMessageEvent, h1, h2]
  · intro h1 h2 h3
    rcases h3 with h3 | h3 <;>
      simp [handleMessageEvent, h1, h2, h3, mkMessageEntry, List.lookup]

/-- C8 witness: a concrete qualifying self-message produces its messageEntry. -/
theorem slack_event_filter_witness :
    handleMessageEvent false "U1" ⟨"", "hi", "U1", "C9", "T", "TS"⟩ 5 =
      some (mkMessageEntry ⟨"", "hi", "U1", "C9", "T", "TS"⟩ 5) :=
  ((slack_event_filter false "U1" ⟨"", "hi", "U1", "C9", "T", "TS"⟩ 5).2.2.2
    rfl (by decide) (Or.inr rfl)).1

/- ===== C1: one emitted record per actual transition, none on constant input ===== -/

theorem changed_congr {r r2 : record} (h : keyEq r r2) (c : record) :
    changed r c = changed r2 c := by
  obtain ⟨h1, h2, h3⟩ := h
  simp [changed, h1, h2, h3]

theorem changed_false_keyEq {r c : record} (h : changed r c = false) : keyEq r c := by
  simp [changed, and_assoc] at h
  exact h

theorem pollLoop_length_from_active :
    ∀ (l : List Sample) (r : record) (t0 : Int),
      ((pollLoop (some (r, t0)) l).1).length = countChangesFrom r l
  | [], r, t0 => by simp [pollLoop, countChangesFrom]
  | s :: rest, r, t0 => by
    by_cases hc : changed r (toRec s) = true
    · simp [pollLoop, pollTick, hc, countChangesFrom,
            pollLoop_length_from_active rest (toRec s) s.now]
      omega
    · have hcf : changed r (toRec s) = false := by simpa using hc
      simp [pollLoop, pollTick, hcf, countChangesFrom,
            pollLoop_length_from_active rest r t0]

theorem countChangesFrom_congr :
    ∀ (l : List Sample) {r r2 : record}, keyEq r r2 →
      countChangesFrom r l = countChangesFrom r2 l
  | [], _, _, _ => rfl
  | s :: rest, r, r2, h => by
    by_cases hc : changed r2 (toRec s) = true
    · simp [countChangesFrom, changed_congr h (toRec s), hc]
    · have hcf : changed r2 (toRec s) = false := by simpa using hc
      simp [countChangesFrom, changed_congr h (toRec s), hcf,
            countChangesFrom_congr rest h]

theorem countChangesFrom_spec :
    ∀ (rest : List Sample) (s : Sample),
      countChangesFrom (toRec s) rest = countTransitions (s :: rest)
  | [], _ => rfl
  | s2 :: r2, s => by
    by_cases hc : changed (toRec s) (toRec s2) = true
    · simp [countChangesFrom, countTransitions, hc, countChangesFrom_spec r2 s2]
    · have hcf : changed (toRec s) (toRec s2) = false := by simpa using hc
      have hk : keyEq (toRec s) (toRec s2) := changed_false_keyEq hcf
      simp [countChangesFrom, countTransitions, hcf,
            countChangesFrom_congr r2 hk, countChangesFrom_spec r2 s2]

theorem countTransitions_const :
    ∀ (samples : List Sample) (a t : String),
      (∀ s ∈ samples, s.app = a ∧ s.title = t) → countTransitions samples = 0
  | [], _, _, _ => rfl
  | [_], _, _, _ => rfl
  | s1 :: s2 :: rest, a, t, h => by
    have h1 := h s1 (by simp)
    have h2 := h s2 (by simp)
    have hch : changed (toRec s1) (toRec s2) = false := by
      simp [changed, toRec, h1.1, h1.2, h2.1, h2.2]
    have hrec := countTransitions_const (s2 :: rest) a t (by
      intro s hs
      exact h s (by simp at hs ⊢; tauto))
    simp [countTransitions, hch, hrec]

/-- C1: over any sample sequence the tracker emits exactly one record per actual
transition (a consecutive pair differing in application, title or classified
activity), and over a sequence in which every sample has the same application and
title it emits no record at all. -/
theorem tracker_one_record_per_transition (samples : List Sample) :
    ((pollLoop none samples).1).length = countTransitions samples ∧
    (∀ a t, (∀ s ∈ samples, s.app = a ∧ s.title = t) → (pollLoop none samples).1 = []) := by
  have hlen : ((pollLoop none samples).1).length = countTransitions samples := by
    cases samples with
    | nil => rfl
    | cons s rest =>
      simp [pollLoop, pollTick, pollLoop_length_from_active rest (toRec s) s.now,
            countChangesFrom_spec]
  refine ⟨hlen, ?_⟩
  intro a t h
  have hct : countTransitions samples = 0 := countTransitions_const samples a t h
  have hz : ((pollLoop none samples).1).length = 0 := by rw [hlen, hct]
  exact List.eq_nil_of_length_eq_zero hz

/-- C1 witness: two identical samples produce no records. -/
theorem tracker_one_record_per_transition_witness :
    (pollLoop none [⟨"A", "x", 0⟩, ⟨"A", "x", 2⟩]).1 = [] :=
  (tracker_one_record_per_transition [⟨"A", "x", 0⟩, ⟨"A", "x", 2⟩]).2 "A" "x" (by decide)

/- ===== C5: a failed append is logged, not fatal, and leaves tracker state intact ===== -/

/-- C5: under any pattern of AppendSession failures the poll loop processes the
whole sample sequence and its in-memory tracker state (the open ActiveSession) is
exactly the failure-free one; the file receives every emitted record except the
failed ones; and each failure is logged exactly once. -/
theorem append_failure_not_fatal :
    ∀ (samples : List Sample) (fail : Nat → Bool) (st : Option (record × Int)) (k : Nat),
      (pollLoopF fail st k samples).2.2 = (pollLoop st samples).2 ∧
      (pollLoopF fail st k samples).1 = filterFails fail k ((pollLoop st samples).1) ∧
      (pollLoopF fail st k samples).2.1 = countFails fail k ((pollLoop st samples).1).length
  | [], fail, st, k => by simp [pollLoopF, pollLoop, filterFails, countFails]
  | s :: rest, fail, st, k => by
    cases he : (pollTick st s).2 with
    | none =>
      have ih := append_failure_not_fatal rest fail (pollTick st s).1 k
      simp [pollLoopF, pollLoop, he, ih.1, ih.2.1, ih.2.2]
    | some sess =>
      have ih := append_failure_not_fatal rest fail (pollTick st s).1 (k + 1)
      simp [pollLoopF, pollLoop, he, filterFails, countFails, ih.1, ih.2.1, ih.2.2]

/- ===== C3: log writer round trip ===== -/

theorem dropLit_append : ∀ (pat l : List Char), dropLit pat (pat ++ l) = some l
  | [], l => rfl
  | p :: ps, l => by simp [dropLit, dropLit_append ps l]

theorem hexVal_hexDig : ∀ n : Nat, n < 16 → hexVal (hexDig n) = some n := by decide

theorem parseJStrBody_escape :
    ∀ (s rest : List Char), parseJStrBody (escapeString s ++ '"' :: rest) = some (s, rest)
  | [], rest => by
    rw [show escapeString [] ++ '"' :: rest = '"' :: rest from rfl]
    rw [parseJStrBody.eq_def]; simp
  | c :: cs, rest => by
    have ih := parseJStrBody_escape cs rest
    by_cases h1 : c = '"'
    · subst h1
      rw [show escapeString ('"' :: cs) ++ '"' :: rest =
            '\\' :: '"' :: (escapeString cs ++ '"' :: rest) from rfl]
      rw [parseJStrBody.eq_def]; simp [ih]
    · by_cases h2 : c = '\\'
      · subst h2
        rw [show escapeString ('\\' :: cs) ++ '"' :: rest =
              '\\' :: '\\' :: (escapeString cs ++ '"' :: rest) from rfl]
        rw [parseJStrBody.eq_def]; simp [ih]
      · by_cases h3 : c = '\n'
        · subst h3
          rw [show escapeString ('\n' :: cs) ++ '"' :: rest =
                '\\' :: 'n' :: (escapeString cs ++ '"' :: rest) from rfl]
          rw [parseJStrBody.eq_def]; simp [ih]
        · by_cases h4 : c = '\r'
          · subst h4
            rw [show escapeString ('\r' :: cs) ++ '"' :: rest =
                  '\\' :: 'r' :: (escapeString cs ++ '"' :: rest) from rfl]
            rw [parseJStrBody.eq_def]; simp [ih]
          · by_cases h5 : c = '\t'
            · subst h5
              rw [show escapeString ('\t' :: cs) ++ '"' :: rest =
                    '\\' :: 't' :: (escapeString cs ++ '"' :: rest) from rfl]
              rw [parseJStrBody.eq_def]; simp [ih]
            · by_cases h6 : c.toNat < 32 ∨ c = '<' ∨ c = '>' ∨ c = '&'
              · have h256 : c.toNat < 256 := by
                  rcases h6 with h | h | h | h
                  · omega
                  · subst h; decide
                  · subst h; decide
                  · subst h; decide
                have e1 : hexVal (hexDig (c.toNat / 16)) = some (c.toNat / 16) :=
                  hexVal_hexDig _ (by omega)
                have e2 : hexVal (hexDig (c.toNat % 16)) = some (c.toNat % 16) :=
                  hexVal_hexDig _ (by omega)
                have hcond : (Nat.blt c.toNat 32 || c == '<' || c == '>' || c == '&') = true := by
                  simp only [Bool.or_eq_true, Nat.blt_eq, beq_iff_eq]
                  tauto
                have hesc : escapeChar c =
                    ['\\', 'u', '0', '0', hexDig (c.toNat / 16), hexDig (c.toNat % 16)] := by
                  simp [escapeChar, h1, h2, h3, h4, h5, hcond]
                rw [show escapeString (c :: cs) ++ '"' :: rest =
                      escapeChar c ++ (escapeString cs ++ '"' :: rest) from by
                    simp [escapeString]]
                rw [hesc]
                simp only [List.cons_append, List.nil_append]
                rw [parseJStrBody.eq_def]
                have e0 : hexVal '0' = some 0 := rfl
                simp [e0, e1, e2, ih]
                rw [show c.toNat / 16 * 16 + c.toNat % 16 = c.toNat from by omega]
                exact Char.ofNat_toNat c
              · have hcond : (Nat.blt c.toNat 32 || c == '<' || c == '>' || c == '&') = false := by
                  push_neg at h6
                  simp only [Bool.or_eq_false_iff, beq_eq_false_iff_ne]
                  refine ⟨⟨⟨?_, h6.2.1⟩, h6.2.2.1⟩, h6.2.2.2⟩
                  simp only [Bool.eq_false_iff, ne_eq, Nat.blt_eq]
                  omega
                by_cases h7 : c.toNat = 0x2028 ∨ c.toNat = 0x2029
                · have e2 : hexVal (hexDig (c.toNat % 16)) = some (c.toNat % 16) :=
                    hexVal_hexDig _ (by omega)
                  have hcond7 : (c.toNat == 0x2028 || c.toNat == 0x2029) = true := by
                    simp only [Bool.or_eq_true, beq_iff_eq]
                    tauto
                  have hesc : escapeChar c =
                      ['\\', 'u', '2', '0', '2', hexDig (c.toNat % 16)] := by
                    simp [escapeChar, h1, h2, h3, h4, h5, hcond, hcond7]
                  rw [show escapeString (c :: cs) ++ '"' :: rest =
                        escapeChar c ++ (escapeString cs ++ '"' :: rest) from by
                      simp [escapeString]]
                  rw [hesc]
                  simp only [List.cons_append, List.nil_append]
                  rw [parseJStrBody.eq_def]
                  have e0 : hexVal '0' = some 0 := rfl
                  have e2h : hexVal '2' = some 2 := rfl
                  simp [e0, e2h, e2, ih]
                  rcases h7 with h | h <;>
                    (rw [show 8224 + c.toNat % 16 = c.toNat from by omega]
                     exact Char.ofNat_toNat c)
                · have hcond7 : (c.toNat == 0x2028 || c.toNat == 0x2029) = false := by
                    push_neg at h7
                    simp only [Bool.or_eq_false_iff, beq_eq_false_iff_ne]
                    exact ⟨h7.1, h7.2⟩
                  have hesc : escapeChar c = [c] := by
                    simp [escapeChar, h1, h2, h3, h4, h5, hcond, hcond7]
                  rw [show escapeString (c :: cs) ++ '"' :: rest =
                        escapeChar c ++ (escapeString cs ++ '"' :: rest) from by
                      simp [escapeString]]
                  rw [hesc]
                  simp only [List.cons_append, List.nil_append]
                  rw [parseJStrBody.eq_def]
                  simp [h1, h2, ih]

theorem charOfNat_digit_toNat (n : Nat) (h : n < 10) : (Char.ofNat (48 + n)).toNat = 48 + n :=
  charOfNat_toNat_le _ (by omega)

theorem isDigitCh_digit (n : Nat) (h : n < 10) : isDigitCh (Char.ofNat (48 + n)) = true := by
  simp [isDigitCh, charOfNat_digit_toNat n h]
  omega

theorem parseNatAux_cons_digit (acc n : Nat) (h : n < 10) (rest : List Char) :
    parseNatAux acc (Char.ofNat (48 + n) :: rest) = parseNatAux (acc * 10 + n) rest := by
  rw [parseNatAux.eq_def]
  simp [isDigitCh_digit n h, charOfNat_digit_toNat n h]

theorem parseNatAux_natDigitsAux :
    ∀ (fuel n acc : Nat) (rest : List Char), n < 10 ^ fuel →
      parseNatAux acc (natDigitsAux fuel n ++ rest) =
        parseNatAux (acc * 10 ^ (natDigitsAux fuel n).length + n) rest
  | 0, n, acc, rest, h => by
    have hn : n = 0 := by simpa using h
    subst hn
    simp [natDigitsAux]
  | fuel + 1, n, acc, rest, h => by
    by_cases h10 : n < 10
    · simp only [natDigitsAux, if_pos h10, List.singleton_append, List.length_singleton,
                 pow_one]
      rw [parseNatAux_cons_digit acc n h10]
    · simp only [natDigitsAux, if_neg h10]
      rw [List.append_assoc, List.singleton_append]
      have hp : (10:Nat) ^ (fuel + 1) = 10 ^ fuel * 10 := pow_succ 10 fuel
      have hdiv : n / 10 < 10 ^ fuel := Nat.div_lt_of_lt_mul (by omega)
      rw [parseNatAux_natDigitsAux fuel (n / 10) acc _ hdiv]
      rw [parseNatAux_cons_digit _ (n % 10) (Nat.mod_lt n (by omega))]
      simp only [List.length_append, List.length_singleton]
      have hm : 10 * (n / 10) + n % 10 = n := Nat.div_add_mod n 10
      have harith : (acc * 10 ^ (natDigitsAux fuel (n / 10)).length + n / 10) * 10 + n % 10 =
          acc * 10 ^ ((natDigitsAux fuel (n / 10)).length + 1) + n := by
        rw [pow_succ]
        ring_nf
        omega
      rw [harith]

theorem natDigitsAux_head :
    ∀ (fuel n : Nat), 0 < fuel →
      ∃ d ds, natDigitsAux fuel n = d :: ds ∧ isDigitCh d = true
  | 0, _, h => absurd h (by omega)
  | fuel + 1, n, _ => by
    by_cases h10 : n < 10
    · exact ⟨Char.ofNat (48 + n), [], by simp [natDigitsAux, if_pos h10],
             isDigitCh_digit n h10⟩
    · rcases Nat.eq_zero_or_pos fuel with hf | hf
      · subst hf
        exact ⟨Char.ofNat (48 + n % 10), [], by simp [natDigitsAux, if_neg h10],
               isDigitCh_digit (n % 10) (Nat.mod_lt n (by omega))⟩
      · obtain ⟨d, ds, hd, hdig⟩ := natDigitsAux_head fuel (n / 10) hf
        exact ⟨d, ds ++ [Char.ofNat (48 + n % 10)],
               by simp [natDigitsAux, if_neg h10, hd], hdig⟩

theorem n_lt_ten_pow (n : Nat) : n < 10 ^ (n + 1) := by
  calc n < 10 ^ n := Nat.lt_pow_self (by omega) n
  _ ≤ 10 ^ (n + 1) := Nat.pow_le_pow_right (by omega) (by omega)

theorem parseNatL_natDigits (n : Nat) (r : List Char) :
    parseNatL (natDigits n ++ '\x7d' :: r) = some (n, '\x7d' :: r) := by
  obtain ⟨d, ds, hd, hdig⟩ := natDigitsAux_head (n + 1) n (by omega)
  rw [show natDigits n = natDigitsAux (n + 1) n from rfl, hd, List.cons_append,
      parseNatL.eq_def]
  simp only [hdig, if_pos]
  rw [← List.cons_append, ← hd,
      parseNatAux_natDigitsAux (n + 1) n 0 _ (n_lt_ten_pow n),
      parseNatAux.eq_def]
  simp [show isDigitCh '\x7d' = false from rfl]

theorem parseIntL_jint (i : Int) (r : List Char) :
    parseIntL (jint i ++ '\x7d' :: r) = some (i, '\x7d' :: r) := by
  by_cases hneg : i < 0
  · simp only [jint, if_pos hneg, List.cons_append]
    rw [parseIntL.eq_def]
    simp [parseNatL_natDigits]
    omega
  · simp only [jint, if_neg hneg]
    obtain ⟨d, ds, hd, hdig⟩ := natDigitsAux_head (i.toNat + 1) i.toNat (by omega)
    rw [show natDigits i.toNat = natDigitsAux (i.toNat + 1) i.toNat from rfl, hd,
        List.cons_append, parseIntL.eq_def]
    have hdm : (d == '-') = false := by
      simp only [isDigitCh, Bool.and_eq_true, Nat.ble_eq] at hdig
      simp only [beq_eq_false_iff_ne, ne_eq]
      intro hh
      rw [hh] at hdig
      simp at hdig
    simp only [hdm, Bool.false_eq_true, if_false]
    rw [← List.cons_append, ← hd]
    rw [show natDigitsAux (i.toNat + 1) i.toNat = natDigits i.toNat from rfl]
    rw [parseNatL_natDigits]
    simp
    omega

theorem stringMk_data (s : String) : String.mk s.data = s := rfl

theorem parseSession_marshal (s : session) (rest : List Char) :
    parseSession (marshalSession s ++ rest) = some (s, rest) := by
  have e1 : "\",\"end\":\"".data = '"' :: ",\"end\":\"".data := rfl
  have e2 : "\",\"app\":\"".data = '"' :: ",\"app\":\"".data := rfl
  have e3 : "\",\"title\":\"".data = '"' :: ",\"title\":\"".data := rfl
  have e4 : "\",\"activity\":\"".data = '"' :: ",\"activity\":\"".data := rfl
  have e5 : "\",\"durationSec\":".data = '"' :: ",\"durationSec\":".data := rfl
  have e6 : "\x7d".data = ['\x7d'] := rfl
  simp only [marshalSession, e1, e2, e3, e4, e5, e6, List.append_assoc, List.cons_append,
             List.singleton_append]
  simp [parseSession, dropLit_append, parseJStrBody_escape, parseIntL_jint, dropLit,
        stringMk_data]

theorem tailContent_eq :
    ∀ (rest : List session) (s : session),
      appendedContent (s :: rest) = marshalSession s ++ tailContent rest
  | [], s => by simp [appendedContent, tailContent]
  | s2 :: r2, s => by
    simp [appendedContent, tailContent, ← tailContent_eq r2 s2]

theorem foldl_append_content :
    ∀ (recs : List session) (j : jsonArrayWriter), j.wroteFirst = true →
      recs.foldl AppendSession j = ⟨j.content ++ tailContent recs, true⟩
  | [], j, h => by
    cases j
    simp_all [tailContent]
  | s :: rest, j, h => by
    simp only [List.foldl_cons]
    rw [foldl_append_content rest (AppendSession j s) (by simp [AppendSession])]
    simp [AppendSession, h, tailContent]

theorem appendAll_content :
    ∀ recs : List session, (appendAll recs).content = "[\n".data ++ appendedContent recs
  | [] => by simp [appendAll, newJSONArrayWriter, appendedContent]
  | s :: rest => by
    simp only [appendAll, List.foldl_cons]
    rw [foldl_append_content rest (AppendSession newJSONArrayWriter s)
        (by simp [AppendSession])]
    simp [AppendSession, newJSONArrayWriter, tailContent_eq]

theorem tailContent_length :
    ∀ recs : List session, recs.length ≤ (tailContent recs).length
  | [] => by simp [tailContent]
  | s :: rest => by
    have := tailContent_length rest
    simp [tailContent, List.length_append]
    omega

theorem parseMore_tailContent :
    ∀ (recs : List session) (fuel : Nat), recs.length ≤ fuel →
      parseMore fuel (tailContent recs ++ "\n]\n".data) = some recs
  | [], fuel, _ => by
    cases fuel <;> simp [parseMore, tailContent]
  | s :: rest, fuel, h => by
    obtain ⟨f, rfl⟩ : ∃ f, fuel = f + 1 := ⟨fuel - 1, by simp at h; omega⟩
    simp only [tailContent, List.append_assoc]
    have hne : (",\n".data ++ (marshalSession s ++ (tailContent rest ++ "\n]\n".data))) ≠
        "\n]\n".data := by
      simp [show ",\n".data = [',', '\n'] from rfl, show "\n]\n".data = ['\n', ']', '\n'] from rfl]
    simp only [parseMore, if_neg hne]
    rw [dropLit_append]
    simp only [Option.some_bind]
    rw [parseSession_marshal]
    simp only [Option.some_bind]
    rw [parseMore_tailContent rest f (by simp at h; omega)]
    simp

theorem parseFile_close_appendAll (recs : List session) :
    parseFile (jsonArrayWriter.Close (appendAll recs)) = some recs := by
  cases recs with
  | nil => decide
  | cons s rest =>
    simp only [jsonArrayWriter.Close, appendAll_content]
    rw [tailContent_eq]
    simp only [List.append_assoc, parseFile]
    rw [dropLit_append]
    have hne : marshalSession s ++ (tailContent rest ++ "\n]\n".data) ≠ "\n]\n".data := by
      simp only [marshalSession,
        show "\x7b\"start\":\"".data = '\x7b' :: "\"start\":\"".data from rfl,
        List.append_assoc, List.cons_append,
        show "\n]\n".data = ['\n', ']', '\n'] from rfl]
      simp
    simp only [Option.some_bind, if_neg hne]
    rw [parseSession_marshal]
    simp only [Option.some_bind]
    have hlen : rest.length ≤ (marshalSession s ++ (tailContent rest ++ "\n]\n".data)).length := by
      have := tailContent_length rest
      simp [List.length_append]
      omega
    rw [parseMore_tailContent rest _ hlen]
    simp

/-- C3: opening the writer, appending any N records and closing yields file content
that parses back into exactly those N records in append order; the payload carries
a separator before a record exactly when it is not the first; and for every k the
content present after the first k completed appends, followed by the closing
token, parses back into exactly those k records — so a failed append of record
k+1 leaves records 1..k intact and parseable. -/
theorem log_writer_round_trip (recs : List session) :
    parseFile (jsonArrayWriter.Close (appendAll recs)) = some recs ∧
    (appendAll recs).content = "[\n".data ++ appendedContent recs ∧
    (∀ k, parseFile (jsonArrayWriter.Close (appendAll (List.take k recs))) =
      some (List.take k recs)) :=
  ⟨parseFile_close_appendAll recs, appendAll_content recs,
   fun k => parseFile_close_appendAll (recs.take k)⟩

/- ===== C4: shutdown emits exactly one final record before close ===== -/

/-- C4: when the poll loop ends with an open session, the shutdown pass emits
exactly one final record, finalized at the signal-handling instant, appended
before the writer is closed (the closed file parses back with it as last record);
when the tracker state is none, close-now emits nothing; and a second close-now
after the first emits no second record. -/
theorem shutdown_final_record (samples : List Sample) (tEnd : Int) :
    (∀ r s0, (pollLoop none samples).2 = some (r, s0) →
      (runMain samples tEnd).1 = (pollLoop none samples).1 ++ [sessionFrom r s0 tEnd] ∧
      (sessionFrom r s0 tEnd).End = fmtTime tEnd) ∧
    ((pollLoop none samples).2 = none → (runMain samples tEnd).1 = (pollLoop none samples).1) ∧
    parseFile (jsonArrayWriter.Close (appendAll (runMain samples tEnd).1)) =
      some ((runMain samples tEnd).1) ∧
    (closeNow (closeNow (pollLoop none samples).2 tEnd).2 tEnd).1 = none := by
  refine ⟨?_, ?_, parseFile_close_appendAll _, ?_⟩
  · intro r s0 h
    constructor
    · simp [runMain, closeNow, h]
    · simp [sessionFrom]
  · intro h
    simp [runMain, closeNow, h]
  · cases h : (pollLoop none samples).2 with
    | none => simp [closeNow]
    | some p => simp [closeNow]

/-- C4 witness: a run over one sample ends with an open session; shutdown at
instant 10 emits exactly that session's final record. -/
theorem shutdown_final_record_witness :
    (runMain [⟨"A", "x", 0⟩] 10).1 =
      (pollLoop none [⟨"A", "x", 0⟩]).1 ++ [sessionFrom ⟨"A", "x", "その他", 0⟩ 0 10] :=
  (((shutdown_final_record [⟨"A", "x", 0⟩] 10).1 ⟨"A", "x", "その他", 0⟩ 0) (by decide)).1

theorem marshalSession_jstr (s : session) :
    marshalSession s =
      "\x7b\"start\":".data ++ jstr s.Start ++ ",\"end\":".data ++ jstr s.End ++
      ",\"app\":".data ++ jstr s.App ++ ",\"title\":".data ++ jstr s.Title ++
      ",\"activity\":".data ++ jstr s.Activity ++ ",\"durationSec\":".data ++
      jint s.DurationSec ++ "\x7d".data := by
  simp only [marshalSession, jstr,
    show "\x7b\"start\":\"".data = "\x7b\"start\":".data ++ ['"'] from by decide,
    show "\",\"end\":\"".data = ['"'] ++ (",\"end\":".data ++ ['"']) from by decide,
    show "\",\"app\":\"".data = ['"'] ++ (",\"app\":".data ++ ['"']) from by decide,
    show "\",\"title\":\"".data = ['"'] ++ (",\"title\":".data ++ ['"']) from by decide,
    show "\",\"activity\":\"".data = ['"'] ++ (",\"activity\":".data ++ ['"']) from by decide,
    show "\",\"durationSec\":".data = ['"'] ++ ",\"durationSec\":".data from by decide,
    List.append_assoc, List.cons_append, List.singleton_append, List.nil_append]
